import Mathlib

/-!
Verification of the memory-and-context-assembly subsystem of the
Intel_agent repository, as a shallow embedding in Lean 4.

The embedding follows the Python sources:
 - `memory.py` (`PostgresMemoryDB`): the `memories` and `interactions`
   tables and the operations `save_memory`, `get_memory`,
   `get_all_memories`, `log_interaction`, `get_recent_history`.
   Tables are lists of rows; SERIAL ids and server-assigned timestamps
   are modelled by counters carried in the database state.
 - `llm_providers.py`: the provider variants (OpenAI, Claude, Gemini,
   Mock).  A Python exception is modelled by `Except.error`; the vendor
   SDK calls, which are external, are passed in as function parameters.
 - `main.py` (`get_provider`): provider selection from the
   `LLM_PROVIDER` environment variable.
 - `agent.py` (`CustomerIntelligenceAgent`): the sqlite `preferences`
   table, `save_preference`, `retrieve_context` and `respond`.
-/

namespace IntelAgent

/-! ## memory.py : PostgresMemoryDB -/

/-- A row of the `memories` table:
`(id SERIAL, user_id TEXT, key TEXT, value TEXT, created_at TIMESTAMP)`
with `UNIQUE(user_id, key)`. Timestamps are modelled as naturals. -/
structure MemRow where
  id : Nat
  user_id : String
  key : String
  value : String
  created_at : Nat
deriving Repr, DecidableEq

/-- A row of the `interactions` table:
`(id SERIAL, user_id TEXT, role TEXT, content TEXT, timestamp TIMESTAMP)`. -/
structure InteractionRow where
  id : Nat
  user_id : String
  role : String
  content : String
  timestamp : Nat
deriving Repr, DecidableEq

/-- The database state backing `PostgresMemoryDB`: the two tables,
the next values of the two SERIAL sequences, and the clock supplying
`CURRENT_TIMESTAMP` (bumped at every write so server-assigned
timestamps are strictly increasing). -/
structure PostgresMemoryDB where
  memories : List MemRow
  interactions : List InteractionRow
  mem_seq : Nat
  int_seq : Nat
  clock : Nat
deriving Repr, DecidableEq

/-- The freshly initialized database (`_init_db`: both tables created,
empty). -/
def initDB : PostgresMemoryDB :=
  { memories := [], interactions := [], mem_seq := 1, int_seq := 1, clock := 0 }

/-- Row filter of `WHERE user_id = %s AND key = %s` on `memories`. -/
def ukey (u k : String) (r : MemRow) : Bool :=
  r.user_id == u && r.key == k

/-- `save_memory(user_id, key, value)`:
`INSERT INTO memories (user_id, key, value) VALUES (...)
 ON CONFLICT (user_id, key) DO UPDATE SET value = EXCLUDED.value`.
On conflict only the `value` column is set; `id` and `created_at` keep
the values assigned at first insert.  Without conflict a fresh row is
appended with a fresh SERIAL id and the current timestamp. -/
def saveMemory (db : PostgresMemoryDB) (u k v : String) : PostgresMemoryDB :=
  if db.memories.any (ukey u k) then
    { db with
      memories := db.memories.map (fun r => if ukey u k r then { r with value := v } else r),
      mem_seq := db.mem_seq + 1,
      clock := db.clock + 1 }
  else
    { db with
      memories := db.memories ++ [⟨db.mem_seq, u, k, v, db.clock⟩],
      mem_seq := db.mem_seq + 1,
      clock := db.clock + 1 }

/-- `get_memory(user_id, key)`:
`SELECT value FROM memories WHERE user_id = %s AND key = %s`, then
`result[0] if result else None`. -/
def getMemory (db : PostgresMemoryDB) (u k : String) : Option String :=
  (db.memories.find? (ukey u k)).map (fun r => r.value)

/-- `get_all_memories(user_id)`:
`SELECT key, value FROM memories WHERE user_id = %s`, then the dict
comprehension over the rows, modelled as the association list of
`(key, value)` pairs. -/
def getAllMemories (db : PostgresMemoryDB) (u : String) : List (String × String) :=
  (db.memories.filter (fun r => r.user_id == u)).map (fun r => (r.key, r.value))

/-- `log_interaction(user_id, role, content)`:
`INSERT INTO interactions (user_id, role, content) VALUES (...)` with
server-assigned id and timestamp. -/
def logInteraction (db : PostgresMemoryDB) (u role content : String) : PostgresMemoryDB :=
  { db with
    interactions := db.interactions ++ [⟨db.int_seq, u, role, content, db.clock⟩],
    int_seq := db.int_seq + 1,
    clock := db.clock + 1 }

/-- The rows of `interactions` for one user, in table (insertion) order. -/
def userInteractions (db : PostgresMemoryDB) (u : String) : List InteractionRow :=
  db.interactions.filter (fun r => r.user_id == u)

/-- Insertion step of sorting by a natural-number sort key, descending. -/
def insDescBy (f : α → Nat) (a : α) : List α → List α
  | [] => [a]
  | x :: xs => if f x < f a then a :: x :: xs else x :: insDescBy f a xs

/-- Sort a list by a natural-number sort key, descending
(models SQL `ORDER BY ... DESC`; on distinct keys the result is the
unique descending arrangement, as for any SQL sort). -/
def sortDescBy (f : α → Nat) (l : List α) : List α :=
  l.foldr (insDescBy f) []

/-- `get_recent_history(user_id, limit)`:
`SELECT role, content, timestamp FROM interactions WHERE user_id = %s
 ORDER BY timestamp DESC LIMIT %s`, then `results[::-1]`
(reverse into chronological order). -/
def getRecentHistory (db : PostgresMemoryDB) (u : String) (limit : Nat) :
    List InteractionRow :=
  ((sortDescBy (fun r => r.timestamp) (userInteractions db u)).take limit).reverse

/-! ## llm_providers.py -/

/-- A message dictionary with `role` and `content` entries. -/
structure Msg where
  role : String
  content : String
deriving Repr, DecidableEq

/-- Python truthiness of an optional string (`None` and `""` are falsy). -/
def pyTruthy : Option String → Bool
  | none => false
  | some s => s ≠ ""

/-- Python `a or b` on optional strings. -/
def pyOr (a b : Option String) : Option String :=
  if pyTruthy a then a else b

/-- State of an `OpenAIProvider` after `__init__`:
`self.api_key = api_key or os.getenv("OPENAI_API_KEY")`; the client is
built only when the key is truthy. -/
structure OpenAIProvider where
  api_key : Option String
  model : String
  hasClient : Bool
deriving Repr, DecidableEq

/-- `OpenAIProvider.__init__(api_key=None, model="gpt-4")`.
`clientInit` stands for the external `openai.OpenAI(api_key=...)`
constructor, the only statement of the body that could raise; it is
invoked only when the key is truthy. -/
def mkOpenAIProvider (clientInit : String → Except String Unit)
    (api_key envKey : Option String) : Except String OpenAIProvider :=
  let key := pyOr api_key envKey
  match key with
  | some s =>
    if s ≠ "" then do
      clientInit s
      pure { api_key := key, model := "gpt-4", hasClient := true }
    else
      pure { api_key := key, model := "gpt-4", hasClient := false }
  | none => pure { api_key := key, model := "gpt-4", hasClient := false }

/-- `OpenAIProvider.generate(prompt, context)`.  `vendorCall` stands for
`self.client.chat.completions.create` (external; may raise). -/
def OpenAIProvider.generate (self : OpenAIProvider)
    (vendorCall : String → List Msg → Except String String)
    (prompt : String) (context : List Msg) : Except String String :=
  if !pyTruthy self.api_key then
    pure "Error: OpenAI API Key missing."
  else
    let messages := ⟨"system", "You are a helpful assistant."⟩ ::
      (context.map (fun m =>
        ⟨if m.role = "user" then "user" else "assistant", m.content⟩) ++
       [⟨"user", prompt⟩])
    vendorCall self.model messages

/-- State of a `ClaudeProvider` after `__init__`. -/
structure ClaudeProvider where
  api_key : Option String
  model : String
  hasClient : Bool
deriving Repr, DecidableEq

/-- `ClaudeProvider.__init__(api_key=None, model="claude-3-opus-20240229")`.
`clientInit` stands for the external `Anthropic(api_key=...)` constructor. -/
def mkClaudeProvider (clientInit : String → Except String Unit)
    (api_key envKey : Option String) : Except String ClaudeProvider :=
  let key := pyOr api_key envKey
  match key with
  | some s =>
    if s ≠ "" then do
      clientInit s
      pure { api_key := key, model := "claude-3-opus-20240229", hasClient := true }
    else
      pure { api_key := key, model := "claude-3-opus-20240229", hasClient := false }
  | none => pure { api_key := key, model := "claude-3-opus-20240229", hasClient := false }

/-- `ClaudeProvider.generate(prompt, context)`.  `vendorCall` stands for
`self.client.messages.create(model=..., max_tokens=1024, messages=...)`. -/
def ClaudeProvider.generate (self : ClaudeProvider)
    (vendorCall : String → Nat → List Msg → Except String String)
    (prompt : String) (context : List Msg) : Except String String :=
  if !pyTruthy self.api_key then
    pure "Error: Anthropic API Key missing."
  else
    let messages := context.map (fun m => ⟨m.role, m.content⟩) ++ [⟨"user", prompt⟩]
    vendorCall self.model 1024 messages

/-- State of a `GeminiProvider` after `__init__`. -/
structure GeminiProvider where
  api_key : Option String
  model : String
  hasClient : Bool
deriving Repr, DecidableEq

/-- `GeminiProvider.__init__(api_key=None, model="gemini-pro")`.
`clientInit` stands for the external `genai.configure` plus
`genai.GenerativeModel` calls. -/
def mkGeminiProvider (clientInit : String → Except String Unit)
    (api_key envKey : Option String) : Except String GeminiProvider :=
  let key := pyOr api_key envKey
  match key with
  | some s =>
    if s ≠ "" then do
      clientInit s
      pure { api_key := key, model := "gemini-pro", hasClient := true }
    else
      pure { api_key := key, model := "gemini-pro", hasClient := false }
  | none => pure { api_key := key, model := "gemini-pro", hasClient := false }

/-- `GeminiProvider.generate(prompt, context)`.  `vendorCall` stands for
`start_chat(history=...)` followed by `send_message(prompt)`; the
history maps role `user` to `user` and everything else to `model`. -/
def GeminiProvider.generate (self : GeminiProvider)
    (vendorCall : List Msg → String → Except String String)
    (prompt : String) (context : List Msg) : Except String String :=
  if !pyTruthy self.api_key then
    pure "Error: Google API Key missing."
  else
    let history := context.map (fun m =>
      ⟨if m.role = "user" then "user" else "model", m.content⟩)
    vendorCall history prompt

/-- `MockProvider.generate(prompt, context)`:
the f-string interpolating the quoted prompt and the context length.
A pure total function of its arguments; it cannot raise. -/
def mockGenerate (prompt : String) (context : List Msg) : String :=
  "[MOCK AI] I received your message: \x27" ++ prompt ++
    "\x27. Context size: " ++ toString context.length

/-! ## main.py : get_provider -/

/-- Python `str.lower()` (ASCII), mapping `Char.toLower` over the
characters. -/
def pyLower (s : String) : String :=
  ⟨s.data.map Char.toLower⟩

/-- The provider class chosen by `get_provider`. -/
inductive ProviderChoice
  | openai
  | claude
  | gemini
  | mock
deriving Repr, DecidableEq

/-- `get_provider()`: reads `LLM_PROVIDER` (default `"mock"`),
lowercases it, and dispatches; every unrecognized name falls through to
`MockProvider` with a printed message.  The second component collects
the `print` output. -/
def get_provider (envLLMProvider : Option String) : ProviderChoice × List String :=
  let provider_name := pyLower (envLLMProvider.getD "mock")
  if provider_name = "openai" then
    (ProviderChoice.openai, [])
  else if provider_name = "anthropic" ∨ provider_name = "claude" then
    (ProviderChoice.claude, [])
  else if provider_name = "gemini" ∨ provider_name = "google" then
    (ProviderChoice.gemini, [])
  else
    (ProviderChoice.mock,
      ["Unknown or missing provider \x27" ++ provider_name ++ "\x27. Using MockProvider."])

/-! ## agent.py : CustomerIntelligenceAgent -/

/-- A row of the sqlite `preferences` table:
`(key TEXT PRIMARY KEY, value TEXT, category TEXT, timestamp TEXT,
confidence REAL)`.  Timestamps (ISO strings assigned from
`datetime.now()`) are modelled as naturals; `confidence` plays no role
in the claims and is modelled as a natural. -/
structure PrefRow where
  key : String
  value : String
  category : String
  timestamp : Nat
  confidence : Nat
deriving Repr, DecidableEq

/-- The per-user sqlite database of `CustomerIntelligenceAgent`,
plus the clock supplying `datetime.now()`. -/
structure AgentFactsDB where
  preferences : List PrefRow
  clock : Nat
deriving Repr, DecidableEq

/-- `save_preference(key, value, category, confidence=1.0)`, sqlite part:
`INSERT OR REPLACE INTO preferences VALUES (?, ?, ?, ?, ?)` — any
existing row with the same primary key is replaced by a brand-new row
carrying the current timestamp. -/
def savePreference (db : AgentFactsDB) (k v cat : String) : AgentFactsDB :=
  { preferences := db.preferences.filter (fun p => !(p.key == k)) ++
      [⟨k, v, cat, db.clock, 1⟩],
    clock := db.clock + 1 }

/-- The rows returned by the query of `retrieve_context`:
`SELECT key, value, category FROM preferences
 ORDER BY timestamp DESC LIMIT 10`. -/
def selectedPreferences (db : AgentFactsDB) : List PrefRow :=
  (sortDescBy (fun p => p.timestamp) db.preferences).take 10

/-- The `(key, value)` facts that make it into the context payload
built by `retrieve_context`. -/
def factsInContext (db : AgentFactsDB) : List (String × String) :=
  (selectedPreferences db).map (fun p => (p.key, p.value))

/-- The preferences section of the context string built by
`retrieve_context`: one `- key: value (category)` line per selected
preference, or the no-known-preferences placeholder. -/
def prefsBlock (db : AgentFactsDB) : String :=
  if selectedPreferences db ≠ [] then
    String.intercalate "\n"
      ((selectedPreferences db).map (fun p =>
        "- " ++ p.key ++ ": " ++ p.value ++ " (" ++ p.category ++ ")"))
  else "(No known preferences)"

/-- `retrieve_context(query)`: formats the vector-store hits (`docs`,
obtained externally from `similarity_search`) and the selected
preferences into the context string handed to the LLM. -/
def retrieve_context (docs : List String) (db : AgentFactsDB) : String :=
  let part1 :=
    "Relevant past information:\n" ++
      (if docs ≠ [] then
        String.intercalate "\n" (docs.map (fun d => "- " ++ d))
      else "(No relevant past context found)")
  part1 ++ "\n\nUser preferences:\n" ++ prefsBlock db

/-- The prompt f-string assembled by `respond` from the retrieved
context, the short-term chat history and the user message. -/
def buildPrompt (context chat_history user_message : String) : String :=
  "\nContext about this user (Long-term Memory):\n" ++ context ++
    "\n\nCurrent conversation history (Short-term Memory):\n" ++ chat_history ++
    "\n\nUser message: " ++ user_message ++
    "\n\nInstruction:\nRespond naturally to the user. " ++
    "Use the context provided to personalize your answer.\n" ++
    "If the user asks a question about themselves " ++
    "(e.g., \"what do I like?\"), refer to the Context."

/-- Outcome of `self.llm.invoke(prompt)`: a response object with
`.content`, or a raised exception. -/
inductive LLMOutcome
  | ok (content : String)
  | raises (msg : String)
deriving Repr, DecidableEq

/-- The mutable state that `CustomerIntelligenceAgent.respond` can see:
its LangChain short-term memory (the `(input, output)` pairs passed to
`save_context`), its sqlite facts database, and — for stating the
interaction-log claims — the `interactions` table of `PostgresMemoryDB`,
which this class never references. -/
structure AgentState where
  shortTerm : List (String × String)
  facts : AgentFactsDB
  interactions : List InteractionRow
deriving Repr, DecidableEq

/-- `CustomerIntelligenceAgent.respond(user_message)`:
retrieve context, load short-term history (rendered by the external
`loadHistory`), build the prompt, invoke the LLM, and only after a
successful invocation update short-term memory via `save_context`.
A raised exception propagates (`Except.error`) leaving the state
unchanged; no step of the method writes the `interactions` table. -/
def respond (llm : String → LLMOutcome) (docs : List String)
    (loadHistory : List (String × String) → String)
    (st : AgentState) (user_message : String) :
    Except String String × AgentState :=
  let context := retrieve_context docs st.facts
  let chat_history := loadHistory st.shortTerm
  let prompt := buildPrompt context chat_history user_message
  match llm prompt with
  | LLMOutcome.raises e => (Except.error e, st)
  | LLMOutcome.ok content =>
    (Except.ok content,
      { st with shortTerm := st.shortTerm ++ [(user_message, content)] })

/-! ## Invariants

Reachable database states: the `UNIQUE(user_id, key)` constraint on
`memories`, and strictly increasing server-assigned timestamps on
`interactions`. -/

/-- The `UNIQUE(user_id, key)` constraint of the `memories` table. -/
def MemNodup (db : PostgresMemoryDB) : Prop :=
  db.memories.Pairwise (fun a b => ¬(a.user_id = b.user_id ∧ a.key = b.key))

/-- Timestamps of logged interactions are strictly increasing in table
order, and all lie strictly below the clock. -/
def IntAsc (db : PostgresMemoryDB) : Prop :=
  db.interactions.Pairwise (fun a b => a.timestamp < b.timestamp) ∧
    ∀ r ∈ db.interactions, r.timestamp < db.clock

theorem ukey_iff (u k : String) (r : MemRow) :
    ukey u k r = true ↔ r.user_id = u ∧ r.key = k := by
  simp [ukey]

theorem initDB_memNodup : MemNodup initDB := by
  simp [MemNodup, initDB]

theorem initDB_intAsc : IntAsc initDB := by
  simp [IntAsc, initDB]

theorem saveMemory_memNodup (db : PostgresMemoryDB) (u k v : String)
    (h : MemNodup db) : MemNodup (saveMemory db u k v) := by
  unfold MemNodup saveMemory
  by_cases hc : db.memories.any (ukey u k)
  · simp only [hc, if_pos]
    rw [List.pairwise_map]
    refine h.imp_of_mem ?_
    intro a b _ _ hab
    by_cases ha : ukey u k a <;> by_cases hb : ukey u k b <;>
      simpa [ha, hb] using hab
  · simp only [hc, if_neg, Bool.false_eq_true, not_false_iff]
    rw [List.pairwise_append]
    refine ⟨h, by simp, ?_⟩
    intro a ha b hb
    simp only [List.mem_singleton] at hb
    subst hb
    intro hcon
    have : ukey u k a = true := by
      rw [ukey_iff]; exact ⟨hcon.1, hcon.2⟩
    have : db.memories.any (ukey u k) = true :=
      List.any_eq_true.mpr ⟨a, ha, this⟩
    simp [this] at hc

theorem logInteraction_memNodup (db : PostgresMemoryDB) (u role content : String)
    (h : MemNodup db) : MemNodup (logInteraction db u role content) := h

theorem saveMemory_intAsc (db : PostgresMemoryDB) (u k v : String)
    (h : IntAsc db) : IntAsc (saveMemory db u k v) := by
  obtain ⟨h1, h2⟩ := h
  unfold IntAsc saveMemory
  by_cases hc : db.memories.any (ukey u k) <;>
    simp only [hc, if_pos, if_neg, Bool.false_eq_true, not_false_iff] <;>
    exact ⟨h1, fun r hr => Nat.lt_succ_of_lt (h2 r hr)⟩

theorem logInteraction_intAsc (db : PostgresMemoryDB) (u role content : String)
    (h : IntAsc db) : IntAsc (logInteraction db u role content) := by
  obtain ⟨h1, h2⟩ := h
  constructor
  · rw [logInteraction, List.pairwise_append]
    refine ⟨h1, by simp, ?_⟩
    intro a ha b hb
    simp only [List.mem_singleton] at hb
    subst hb
    exact h2 a ha
  · intro r hr
    rw [logInteraction] at hr
    simp only [List.mem_append, List.mem_singleton] at hr
    rcases hr with hr | hr
    · exact Nat.lt_succ_of_lt (h2 r hr)
    · subst hr; exact Nat.lt_succ_self _

/-- Reachable-state invariant of the agent sqlite store: timestamps of
stored preferences are strictly increasing in table order (each
`save_preference` removes any row with the same key and appends a
fresh row carrying the current clock), and all lie below the clock. -/
def PrefAsc (db : AgentFactsDB) : Prop :=
  db.preferences.Pairwise (fun a b => a.timestamp < b.timestamp) ∧
    ∀ p ∈ db.preferences, p.timestamp < db.clock

theorem emptyAgentDB_prefAsc : PrefAsc ⟨[], 0⟩ := by
  simp [PrefAsc]

theorem savePreference_prefAsc (db : AgentFactsDB) (k v cat : String)
    (h : PrefAsc db) : PrefAsc (savePreference db k v cat) := by
  obtain ⟨h1, h2⟩ := h
  constructor
  · rw [savePreference, List.pairwise_append]
    refine ⟨h1.filter _, by simp, ?_⟩
    intro a ha b hb
    simp only [List.mem_singleton] at hb
    subst hb
    exact h2 a (List.mem_of_mem_filter ha)
  · intro p hp
    rw [savePreference] at hp
    simp only [List.mem_append, List.mem_singleton] at hp
    rcases hp with hp | hp
    · exact Nat.lt_succ_of_lt (h2 p (List.mem_of_mem_filter hp))
    · subst hp; exact Nat.lt_succ_self _

/-! ## List helper lemmas -/

theorem find_eq_head_filter (p : α → Bool) (l : List α) :
    l.find? p = (l.filter p).head? := by
  induction l with
  | nil => rfl
  | cons a t ih =>
    by_cases h : p a
    · rw [List.find?_cons_of_pos _ h, List.filter_cons_of_pos h, List.head?_cons]
    · rw [Bool.not_eq_true] at h
      rw [List.find?_cons_of_neg _ (by simp [h]), List.filter_cons_of_neg (by simp [h]), ih]

theorem filter_map_comm (p : α → Bool) (f : α → α) (hf : ∀ a, p (f a) = p a)
    (l : List α) : (l.map f).filter p = (l.filter p).map f := by
  induction l with
  | nil => rfl
  | cons a t ih =>
    by_cases h : p a
    · simp [List.filter_cons, hf a, h, ih]
    · simp [List.filter_cons, hf a, h, ih]

theorem filter_map_invariant (p : α → Bool) (f : α → α)
    (hp : ∀ a, p (f a) = p a) (hf : ∀ a, p a = true → f a = a) (l : List α) :
    (l.map f).filter p = l.filter p := by
  rw [filter_map_comm p f hp]
  have : ∀ a ∈ l.filter p, f a = a := by
    intro a ha
    exact hf a (List.of_mem_filter ha)
  calc (l.filter p).map f = (l.filter p).map id := List.map_congr_left this
    _ = l.filter p := List.map_id _

theorem mem_filter_ukey_unique (u k : String) (l : List MemRow)
    (hnd : l.Pairwise (fun a b => ¬(a.user_id = b.user_id ∧ a.key = b.key)))
    (r : MemRow) (hr : r ∈ l) (hk : ukey u k r = true) :
    l.filter (ukey u k) = [r] := by
  obtain ⟨hru, hrk⟩ := (ukey_iff u k r).mp hk
  induction l with
  | nil => cases hr
  | cons a t ih =>
    rw [List.pairwise_cons] at hnd
    obtain ⟨ha, ht⟩ := hnd
    rcases List.mem_cons.mp hr with hr | hr
    · subst hr
      rw [List.filter_cons, if_pos hk]
      congr 1
      rw [List.filter_eq_nil_iff]
      intro b hb hpb
      obtain ⟨hbu, hbk⟩ := (ukey_iff u k b).mp hpb
      exact ha b hb ⟨hru.trans hbu.symm, hrk.trans hbk.symm⟩
    · have hpa : ukey u k a = false := by
        rw [Bool.eq_false_iff]
        intro hpa
        obtain ⟨hau, hak⟩ := (ukey_iff u k a).mp hpa
        exact ha r hr ⟨hau.trans hru.symm, hak.trans hrk.symm⟩
      rw [List.filter_cons, if_neg (by simp [hpa])]
      exact ih ht hr

/-- The update applied by the `ON CONFLICT` branch keeps `user_id` and
`key`, hence preserves the row filter. -/
theorem ukey_update_value (u k v : String) (r : MemRow) :
    ukey u k (if ukey u k r then { r with value := v } else r) = ukey u k r := by
  by_cases h : ukey u k r
  · simp only [h, if_pos]
    obtain ⟨h1, h2⟩ := (ukey_iff u k r).mp h
    rw [ukey_iff]
    exact ⟨h1, h2⟩
  · simp [h]

/-- Effect of `save_memory` on the rows matching `(user_id, key)`:
afterwards there is exactly one such row; on conflict it is the old row
with only `value` replaced, otherwise it is a fresh row carrying the
next SERIAL id and the current timestamp. -/
theorem saveMemory_filter_ukey (db : PostgresMemoryDB) (u k v : String)
    (h : MemNodup db) :
    (saveMemory db u k v).memories.filter (ukey u k) =
      match db.memories.find? (ukey u k) with
      | some r => [{ r with value := v }]
      | none => [⟨db.mem_seq, u, k, v, db.clock⟩] := by
  by_cases hc : db.memories.any (ukey u k)
  · obtain ⟨r, hr, hpr⟩ := List.any_eq_true.mp hc
    have hfil : db.memories.filter (ukey u k) = [r] :=
      mem_filter_ukey_unique u k db.memories h r hr hpr
    have hfind : db.memories.find? (ukey u k) = some r := by
      rw [find_eq_head_filter, hfil]; rfl
    rw [hfind]
    unfold saveMemory
    simp only [hc, if_pos]
    rw [filter_map_comm _ _ (ukey_update_value u k v), hfil]
    simp [hpr]
  · have hfind : db.memories.find? (ukey u k) = none := by
      rw [List.find?_eq_none]
      intro a ha hpa
      exact (by simp [List.any_eq_true.mpr ⟨a, ha, hpa⟩] at hc)
    rw [hfind]
    unfold saveMemory
    simp only [hc, if_neg, Bool.false_eq_true, not_false_iff]
    rw [List.filter_append]
    have h1 : db.memories.filter (ukey u k) = [] := by
      rw [List.filter_eq_nil_iff]
      intro a ha hpa
      exact (by simp [List.any_eq_true.mpr ⟨a, ha, hpa⟩] at hc)
    have h2 : ukey u k (⟨db.mem_seq, u, k, v, db.clock⟩ : MemRow) = true := by
      rw [ukey_iff]; exact ⟨rfl, rfl⟩
    rw [h1, List.nil_append, List.filter_cons, if_pos (by simp [h2])]
    rfl

/-- Dict lookup over a user-filtered row list finds the unique row for
the key. -/
theorem lookup_map_filter (u k : String) (l : List MemRow)
    (h : l.Pairwise (fun a b => ¬(a.user_id = b.user_id ∧ a.key = b.key)))
    (r : MemRow) (hr : r ∈ l) (hu : r.user_id = u) (hk : r.key = k) :
    ((l.filter (fun r => r.user_id == u)).map
      (fun r => (r.key, r.value))).lookup k = some r.value := by
  induction l with
  | nil => cases hr
  | cons a t ih =>
    rw [List.pairwise_cons] at h
    obtain ⟨ha, ht⟩ := h
    rcases List.mem_cons.mp hr with hr | hr
    · subst hr
      rw [List.filter_cons, if_pos (by simp [hu]), List.map_cons, List.lookup_cons]
      simp [hk]
    · by_cases hau : a.user_id = u
      · have hak : ¬(a.key = k) := by
          intro hak
          exact ha r hr ⟨hau.trans hu.symm, hak.trans hk.symm⟩
        rw [List.filter_cons, if_pos (by simp [hau]), List.map_cons, List.lookup_cons]
        have : (k == a.key) = false := by
          simp only [beq_eq_false_iff_ne, ne_eq]
          exact fun hh => hak hh.symm
        rw [this]
        exact ih ht hr
      · rw [List.filter_cons, if_neg (by simp [hau])]
        exact ih ht hr

/-- Under the unique constraint, the keys of `get_all_memories` carry
no duplicates (the dict built by the comprehension is one-to-one). -/
theorem getAllMemories_keys_nodup (db : PostgresMemoryDB) (u : String)
    (h : MemNodup db) : ((getAllMemories db u).map Prod.fst).Nodup := by
  unfold getAllMemories
  rw [List.map_map]
  have h1 : (db.memories.filter (fun r => r.user_id == u)).Pairwise
      (fun a b => ¬(a.user_id = b.user_id ∧ a.key = b.key)) := h.filter _
  have h2 : (db.memories.filter (fun r => r.user_id == u)).Pairwise
      (fun a b => ¬(a.key = b.key)) := by
    refine h1.imp_of_mem ?_
    intro a b hma hmb hab hk
    have hua : a.user_id = u := by simpa using (List.mem_filter.mp hma).2
    have hub : b.user_id = u := by simpa using (List.mem_filter.mp hmb).2
    exact hab ⟨hua.trans hub.symm, hk⟩
  rw [List.Nodup, List.pairwise_map]
  refine h2.imp ?_
  intro a b hab
  simpa using hab

/-! ## Sorting lemmas -/

theorem insDescBy_append (f : α → Nat) (a : α) (l : List α)
    (h : ∀ x ∈ l, f a < f x) : insDescBy f a l = l ++ [a] := by
  induction l with
  | nil => rfl
  | cons x t ih =>
    have hx : ¬(f x < f a) := Nat.not_lt.mpr (Nat.le_of_lt (h x (List.mem_cons_self x t)))
    rw [insDescBy, if_neg hx, ih (fun y hy => h y (List.mem_cons_of_mem x hy))]
    rfl

/-- `ORDER BY ... DESC` applied to a list whose sort keys are strictly
increasing simply reverses the list. -/
theorem sortDescBy_of_strictAsc (f : α → Nat) (l : List α)
    (h : l.Pairwise (fun a b => f a < f b)) :
    sortDescBy f l = l.reverse := by
  induction l with
  | nil => rfl
  | cons a t ih =>
    rw [List.pairwise_cons] at h
    obtain ⟨ha, ht⟩ := h
    have : sortDescBy f (a :: t) = insDescBy f a (sortDescBy f t) := rfl
    rw [this, ih ht, insDescBy_append f a t.reverse
      (fun x hx => ha x (List.mem_reverse.mp hx)), List.reverse_cons]

theorem insDescBy_perm (f : α → Nat) (a : α) (l : List α) :
    (insDescBy f a l).Perm (a :: l) := by
  induction l with
  | nil => exact List.Perm.refl _
  | cons x t ih =>
    rw [insDescBy]
    by_cases h : f x < f a
    · rw [if_pos h]
    · rw [if_neg h]
      exact (ih.cons x).trans (List.Perm.swap a x t)

theorem sortDescBy_perm (f : α → Nat) (l : List α) :
    (sortDescBy f l).Perm l := by
  induction l with
  | nil => exact List.Perm.refl _
  | cons a t ih =>
    have : sortDescBy f (a :: t) = insDescBy f a (sortDescBy f t) := rfl
    rw [this]
    exact (insDescBy_perm f a _).trans (ih.cons a)

theorem sortDescBy_length (f : α → Nat) (l : List α) :
    (sortDescBy f l).length = l.length :=
  (sortDescBy_perm f l).length_eq

/-! ## Non-interference helpers -/

theorem find_map_invariant (p : α → Bool) (f : α → α)
    (hp : ∀ a, p (f a) = p a) (hf : ∀ a, p a = true → f a = a) (l : List α) :
    (l.map f).find? p = l.find? p := by
  rw [find_eq_head_filter, find_eq_head_filter, filter_map_invariant p f hp hf]

theorem filter_append_single_neg (p : α → Bool) (l : List α) (a : α)
    (h : p a = false) : (l ++ [a]).filter p = l.filter p := by
  rw [List.filter_append, List.filter_cons, if_neg (by simp [h])]
  simp

/-! ## Claim theorems -/

/-- C5: for every prompt string and every context list, the
`generate` of the Mock/Offline provider never raises (it is a total,
`String`-valued function of its two arguments), always returns a
response string containing the verbatim prompt text, and — being a
pure function — returns the same response whenever called twice with
the same prompt and context. -/
theorem mock_generate_contains_prompt :
    ∀ (prompt : String) (context : List Msg),
      (∃ pre post, mockGenerate prompt context = pre ++ prompt ++ post) ∧
      mockGenerate prompt context = mockGenerate prompt context := by
  intro prompt context
  refine ⟨⟨"[MOCK AI] I received your message: \x27",
    "\x27. Context size: " ++ toString context.length, ?_⟩, rfl⟩
  rw [mockGenerate]
  simp [String.append_assoc]

/-- C6: for every vendor provider variant (OpenAI, Claude, Gemini),
if the API credential is absent (neither passed in nor present in the
environment), the constructor completes without raising — whatever the
external vendor SDK client constructor would do — and every subsequent
`generate` call returns the clearly marked error string of the variant
instead of invoking the vendor at all. -/
theorem providers_tolerate_missing_key :
    ∀ (initO initC initG : String → Except String Unit)
      (vcO : String → List Msg → Except String String)
      (vcC : String → Nat → List Msg → Except String String)
      (vcG : List Msg → String → Except String String)
      (prompt : String) (context : List Msg),
      (∃ p, mkOpenAIProvider initO none none = Except.ok p ∧
        p.generate vcO prompt context = Except.ok "Error: OpenAI API Key missing.") ∧
      (∃ p, mkClaudeProvider initC none none = Except.ok p ∧
        p.generate vcC prompt context = Except.ok "Error: Anthropic API Key missing.") ∧
      (∃ p, mkGeminiProvider initG none none = Except.ok p ∧
        p.generate vcG prompt context = Except.ok "Error: Google API Key missing.") := by
  intro initO initC initG vcO vcC vcG prompt context
  exact ⟨⟨_, rfl, rfl⟩, ⟨_, rfl, rfl⟩, ⟨_, rfl, rfl⟩⟩

/-- C7: for every provider name that is not one of the recognized
vendor names after lowercasing (and in particular for a missing
`LLM_PROVIDER`, whose default `"mock"` is unrecognized), `get_provider`
returns the Mock variant rather than raising, and prints a fallback
message. -/
theorem get_provider_falls_back_to_mock (envLLMProvider : Option String)
    (h : pyLower (envLLMProvider.getD "mock") ∉
      ["openai", "anthropic", "claude", "gemini", "google"]) :
    (get_provider envLLMProvider).1 = ProviderChoice.mock ∧
    (get_provider envLLMProvider).2 =
      ["Unknown or missing provider \x27" ++ pyLower (envLLMProvider.getD "mock") ++
        "\x27. Using MockProvider."] := by
  simp only [List.mem_cons, List.not_mem_nil, or_false, not_or] at h
  obtain ⟨h1, h2, h3, h4, h5⟩ := h
  simp only [get_provider]
  rw [if_neg h1, if_neg (not_or.mpr ⟨h2, h3⟩), if_neg (not_or.mpr ⟨h4, h5⟩)]
  exact ⟨rfl, rfl⟩

/-- Witness for C7 at the concrete input `LLM_PROVIDER` unset: the
default name `"mock"` is unrecognized and `get_provider` falls back to
the Mock variant with a printed message. -/
theorem get_provider_falls_back_to_mock_witness :
    (pyLower ((none : Option String).getD "mock") ∉
      ["openai", "anthropic", "claude", "gemini", "google"]) ∧
    ((get_provider none).1 = ProviderChoice.mock ∧
     (get_provider none).2 =
      ["Unknown or missing provider \x27" ++ pyLower ((none : Option String).getD "mock") ++
        "\x27. Using MockProvider."]) :=
  ⟨by decide, get_provider_falls_back_to_mock none (by decide)⟩

/-- C3 (evaluation of the code at the failing input): the orchestrator
present in `agent.py` (`CustomerIntelligenceAgent.respond`) never
writes the `interactions` table at all — in particular it performs no
log-inbound step before generation — so when the LLM raises, the
interaction log afterwards contains no entry for the turn, not even
the inbound user message; concretely, from an empty state a turn
`"hello"` against a raising LLM propagates the exception and leaves
the interaction log empty. -/
theorem respond_failure_leaves_no_user_entry :
    (∀ (llm : String → LLMOutcome) (docs : List String)
        (loadHistory : List (String × String) → String)
        (st : AgentState) (m : String),
        ((respond llm docs loadHistory st m).2).interactions = st.interactions) ∧
    ((respond (fun _ => LLMOutcome.raises "boom") [] (fun _ => "")
        ⟨[], ⟨[], 0⟩, []⟩ "hello").1 = Except.error "boom" ∧
      ((respond (fun _ => LLMOutcome.raises "boom") [] (fun _ => "")
        ⟨[], ⟨[], 0⟩, []⟩ "hello").2).interactions = []) := by
  refine ⟨?_, rfl, rfl⟩
  intro llm docs loadHistory st m
  simp only [respond]
  cases llm (buildPrompt (retrieve_context docs st.facts) (loadHistory st.shortTerm) m) <;>
    rfl

/-- C1: for every `user_id`, `key` and values `v1` then `v2`, the
upsert `save_memory` called with `v1` then `v2` leaves exactly one
stored row for the `(user_id, key)` pair, whose value is `v2`, and a
subsequent `get_all_memories(user_id)` yields a mapping in which that
key maps to `v2` with no duplicate key entry.  The hypothesis is the
`UNIQUE(user_id, key)` constraint, which holds in every reachable
state. -/
theorem save_memory_idempotent_upsert (db : PostgresMemoryDB)
    (u k v1 v2 : String) (h : MemNodup db) :
    (∃ r : MemRow,
      (saveMemory (saveMemory db u k v1) u k v2).memories.filter (ukey u k) = [r] ∧
      r.user_id = u ∧ r.key = k ∧ r.value = v2) ∧
    (getAllMemories (saveMemory (saveMemory db u k v1) u k v2) u).lookup k = some v2 ∧
    ((getAllMemories (saveMemory (saveMemory db u k v1) u k v2) u).map Prod.fst).Nodup := by
  have h1 : MemNodup (saveMemory db u k v1) := saveMemory_memNodup db u k v1 h
  have h2 : MemNodup (saveMemory (saveMemory db u k v1) u k v2) :=
    saveMemory_memNodup _ u k v2 h1
  have hfil := saveMemory_filter_ukey (saveMemory db u k v1) u k v2 h1
  have hone : ∃ r : MemRow,
      (saveMemory (saveMemory db u k v1) u k v2).memories.filter (ukey u k) = [r] ∧
      r.user_id = u ∧ r.key = k ∧ r.value = v2 := by
    cases hfind : (saveMemory db u k v1).memories.find? (ukey u k) with
    | some r0 =>
      rw [hfind] at hfil
      obtain ⟨h1u, h1k⟩ := (ukey_iff u k r0).mp (List.find?_some hfind)
      exact ⟨_, hfil, h1u, h1k, rfl⟩
    | none =>
      rw [hfind] at hfil
      exact ⟨_, hfil, rfl, rfl, rfl⟩
  obtain ⟨r, hr, hru, hrk, hrv⟩ := hone
  refine ⟨⟨r, hr, hru, hrk, hrv⟩, ?_, getAllMemories_keys_nodup _ u h2⟩
  have hmem : r ∈ (saveMemory (saveMemory db u k v1) u k v2).memories := by
    refine List.mem_of_mem_filter (p := ukey u k) ?_
    rw [hr]
    exact List.mem_singleton_self r
  have hlook := lookup_map_filter u k _ h2 r hmem hru hrk
  simp only [getAllMemories]
  rw [hlook, hrv]

/-- Witness for C1 at the fact round-trip scenario:
`save_memory(A, "hobby", "chess")` then `save_memory(A, "hobby", "go")`
on the fresh database. -/
theorem save_memory_idempotent_upsert_witness :
    MemNodup initDB ∧
    ((∃ r : MemRow,
      (saveMemory (saveMemory initDB "A" "hobby" "chess") "A" "hobby" "go").memories.filter
        (ukey "A" "hobby") = [r] ∧
      r.user_id = "A" ∧ r.key = "hobby" ∧ r.value = "go") ∧
    (getAllMemories (saveMemory (saveMemory initDB "A" "hobby" "chess") "A" "hobby" "go")
        "A").lookup "hobby" = some "go" ∧
    ((getAllMemories (saveMemory (saveMemory initDB "A" "hobby" "chess") "A" "hobby" "go")
        "A").map Prod.fst).Nodup) :=
  ⟨initDB_memNodup, save_memory_idempotent_upsert initDB "A" "hobby" "chess" "go" initDB_memNodup⟩

/-- C8: `get_memory` returns the stored value of the unique row for
`(user_id, key)` when one exists and the explicit absence signal `none`
when none exists; a stored empty-string value is returned as
`some ""`, never conflated with absence. -/
theorem get_memory_absent_signal (db : PostgresMemoryDB) (u k : String)
    (h : MemNodup db) :
    (db.memories.filter (ukey u k) = [] → getMemory db u k = none) ∧
    (∀ r ∈ db.memories, r.user_id = u → r.key = k → getMemory db u k = some r.value) ∧
    getMemory (saveMemory db u k "") u k = some "" := by
  refine ⟨?_, ?_, ?_⟩
  · intro hnil
    rw [getMemory, find_eq_head_filter, hnil]
    rfl
  · intro r hr hru hrk
    have hfil : db.memories.filter (ukey u k) = [r] :=
      mem_filter_ukey_unique u k db.memories h r hr ((ukey_iff u k r).mpr ⟨hru, hrk⟩)
    rw [getMemory, find_eq_head_filter, hfil]
    rfl
  · have hfil := saveMemory_filter_ukey db u k "" h
    rw [getMemory, find_eq_head_filter]
    cases hfind : db.memories.find? (ukey u k) with
    | some r0 => rw [hfind] at hfil; rw [hfil]; rfl
    | none => rw [hfind] at hfil; rw [hfil]; rfl

/-- Witness for C8 at a concrete database: after storing the empty
string under `("A", "note")`, `get_memory` returns `some ""`, an
absent key returns `none`, and a stored value is returned. -/
theorem get_memory_absent_signal_witness :
    MemNodup (saveMemory initDB "A" "hobby" "chess") ∧
    (((saveMemory initDB "A" "hobby" "chess").memories.filter (ukey "A" "city") = [] →
        getMemory (saveMemory initDB "A" "hobby" "chess") "A" "city" = none) ∧
      (∀ r ∈ (saveMemory initDB "A" "hobby" "chess").memories,
        r.user_id = "A" → r.key = "city" →
        getMemory (saveMemory initDB "A" "hobby" "chess") "A" "city" = some r.value) ∧
      getMemory (saveMemory (saveMemory initDB "A" "hobby" "chess") "A" "city" "")
        "A" "city" = some "") ∧
    getMemory (saveMemory initDB "A" "hobby" "chess") "A" "city" = none :=
  ⟨by simp [MemNodup, initDB, saveMemory, ukey],
   get_memory_absent_signal (saveMemory initDB "A" "hobby" "chess") "A" "city"
     (by simp [MemNodup, initDB, saveMemory, ukey]),
   (get_memory_absent_signal (saveMemory initDB "A" "hobby" "chess") "A" "city"
     (by simp [MemNodup, initDB, saveMemory, ukey])).1 (by decide)⟩

/-- C10: when `save_memory` overwrites an existing `(user_id, key)`
row, only the `value` column changes — the row keeps the `id` and
`created_at` assigned when the fact was first inserted.  Applying this
step to each overwrite of a sequence keeps the original `id` and
`created_at` through the whole sequence. -/
theorem save_memory_overwrite_frame (db : PostgresMemoryDB)
    (u k v : String) (r : MemRow) (h : MemNodup db)
    (hr : db.memories.filter (ukey u k) = [r]) :
    (saveMemory db u k v).memories.filter (ukey u k) =
      [⟨r.id, u, k, v, r.created_at⟩] := by
  have hfind : db.memories.find? (ukey u k) = some r := by
    rw [find_eq_head_filter, hr]
    rfl
  have hfil := saveMemory_filter_ukey db u k v h
  rw [hfind] at hfil
  rw [hfil]
  have hmem : r ∈ db.memories.filter (ukey u k) := by
    rw [hr]; exact List.mem_singleton_self r
  obtain ⟨hru, hrk⟩ := (ukey_iff u k r).mp (List.of_mem_filter hmem)
  cases r
  simp_all

/-- Witness for C10: the row created by
`save_memory(A, "hobby", "chess")` keeps id `1` and timestamp `0` when
overwritten with `"go"`; only `value` changes. -/
theorem save_memory_overwrite_frame_witness :
    MemNodup (saveMemory initDB "A" "hobby" "chess") ∧
    (saveMemory initDB "A" "hobby" "chess").memories.filter (ukey "A" "hobby") =
      [⟨1, "A", "hobby", "chess", 0⟩] ∧
    (saveMemory (saveMemory initDB "A" "hobby" "chess") "A" "hobby" "go").memories.filter
      (ukey "A" "hobby") = [⟨1, "A", "hobby", "go", 0⟩] :=
  ⟨by simp [MemNodup, initDB, saveMemory, ukey], by decide,
   save_memory_overwrite_frame (saveMemory initDB "A" "hobby" "chess") "A" "hobby" "go"
     ⟨1, "A", "hobby", "chess", 0⟩
     (by simp [MemNodup, initDB, saveMemory, ukey]) (by decide)⟩

/-- The `ON CONFLICT` update touches neither `user_id` nor `key`, so
every row filter of the form `ukey u k` is invariant under it. -/
theorem ukey_of_update (uA kA v u k : String) (r : MemRow) :
    ukey u k (if ukey uA kA r then { r with value := v } else r) = ukey u k r := by
  by_cases h : ukey uA kA r
  · rw [if_pos h, ukey, ukey]
  · rw [if_neg h]

theorem find_append_single_neg (p : α → Bool) (l : List α) (a : α)
    (h : p a = false) : (l ++ [a]).find? p = l.find? p := by
  rw [find_eq_head_filter, find_eq_head_filter, filter_append_single_neg p l a h]

theorem saveMemory_interactions (db : PostgresMemoryDB) (u k v : String) :
    (saveMemory db u k v).interactions = db.interactions := by
  unfold saveMemory
  by_cases hc : db.memories.any (ukey u k) <;> simp [hc]

/-- `save_memory` for user `A` leaves every `(B, k2)` point lookup of a
different user `B` unchanged. -/
theorem saveMemory_find_other (db : PostgresMemoryDB) (A k v B k2 : String)
    (hne : B ≠ A) :
    (saveMemory db A k v).memories.find? (ukey B k2) =
      db.memories.find? (ukey B k2) := by
  have hBA : ∀ r : MemRow, ukey B k2 r = true → ukey A k r = false := by
    intro r hB
    rw [Bool.eq_false_iff]
    intro hA
    exact hne (((ukey_iff B k2 r).mp hB).1.symm.trans ((ukey_iff A k r).mp hA).1)
  unfold saveMemory
  by_cases hc : db.memories.any (ukey A k)
  · simp only [hc, if_pos]
    refine find_map_invariant _ _ (fun a => ukey_of_update A k v B k2 a) ?_ db.memories
    intro a ha
    rw [if_neg (by simp [hBA a ha])]
  · simp only [hc, if_neg, Bool.false_eq_true, not_false_iff]
    refine find_append_single_neg _ _ _ ?_
    rw [Bool.eq_false_iff]
    intro hB
    exact hne (((ukey_iff B k2 _).mp hB).1.symm)

/-- `save_memory` for user `A` leaves the row set of a different user
`B` unchanged. -/
theorem saveMemory_filter_user_other (db : PostgresMemoryDB) (A k v B : String)
    (hne : B ≠ A) :
    (saveMemory db A k v).memories.filter (fun r => r.user_id == B) =
      db.memories.filter (fun r => r.user_id == B) := by
  unfold saveMemory
  by_cases hc : db.memories.any (ukey A k)
  · simp only [hc, if_pos]
    refine filter_map_invariant _ _ ?_ ?_ db.memories
    · intro a
      by_cases h : ukey A k a
      · rw [if_pos h]
      · rw [if_neg h]
    · intro a ha
      have hau : a.user_id = B := by simpa using ha
      have : ukey A k a = false := by
        rw [Bool.eq_false_iff]
        intro hA
        exact hne (hau.symm.trans ((ukey_iff A k a).mp hA).1)
      rw [if_neg (by simp [this])]
  · simp only [hc, if_neg, Bool.false_eq_true, not_false_iff]
    refine filter_append_single_neg _ _ _ ?_
    simp only [beq_eq_false_iff_ne, ne_eq]
    exact fun hA => hne hA.symm

/-- `log_interaction` for user `A` leaves the interaction rows of a
different user `B` unchanged. -/
theorem logInteraction_userInteractions_other (db : PostgresMemoryDB)
    (A role content B : String) (hne : B ≠ A) :
    userInteractions (logInteraction db A role content) B =
      userInteractions db B := by
  unfold userInteractions logInteraction
  refine filter_append_single_neg _ _ _ ?_
  simp only [beq_eq_false_iff_ne, ne_eq]
  exact fun hA => hne hA.symm

/-- C4: state partitioning by `user_id` — no write for user `A`
(either a fact upsert or an interaction log entry) changes the result
of any read (`get_memory`, `get_all_memories`, `get_recent_history`)
performed for a different user `B`. -/
theorem reads_partitioned_by_user (db : PostgresMemoryDB)
    (A B k v role content k2 : String) (n : Nat) (hne : B ≠ A) :
    getMemory (saveMemory db A k v) B k2 = getMemory db B k2 ∧
    getAllMemories (saveMemory db A k v) B = getAllMemories db B ∧
    getRecentHistory (saveMemory db A k v) B n = getRecentHistory db B n ∧
    getMemory (logInteraction db A role content) B k2 = getMemory db B k2 ∧
    getAllMemories (logInteraction db A role content) B = getAllMemories db B ∧
    getRecentHistory (logInteraction db A role content) B n = getRecentHistory db B n := by
  refine ⟨?_, ?_, ?_, rfl, rfl, ?_⟩
  · simp only [getMemory, saveMemory_find_other db A k v B k2 hne]
  · simp only [getAllMemories, saveMemory_filter_user_other db A k v B hne]
  · simp only [getRecentHistory, userInteractions, saveMemory_interactions]
  · simp only [getRecentHistory,
      logInteraction_userInteractions_other db A role content B hne]

/-- Witness for C4 at concrete users `"B" ≠ "A"` on a populated
database. -/
theorem reads_partitioned_by_user_witness :
    ("B" : String) ≠ "A" ∧
    (getMemory (saveMemory (logInteraction initDB "B" "user" "hi") "A" "hobby" "chess")
        "B" "hobby" =
      getMemory (logInteraction initDB "B" "user" "hi") "B" "hobby" ∧
    getAllMemories (saveMemory (logInteraction initDB "B" "user" "hi") "A" "hobby" "chess")
        "B" =
      getAllMemories (logInteraction initDB "B" "user" "hi") "B" ∧
    getRecentHistory (saveMemory (logInteraction initDB "B" "user" "hi") "A" "hobby" "chess")
        "B" 5 =
      getRecentHistory (logInteraction initDB "B" "user" "hi") "B" 5 ∧
    getMemory (logInteraction (logInteraction initDB "B" "user" "hi") "A" "user" "yo")
        "B" "hobby" =
      getMemory (logInteraction initDB "B" "user" "hi") "B" "hobby" ∧
    getAllMemories (logInteraction (logInteraction initDB "B" "user" "hi") "A" "user" "yo")
        "B" =
      getAllMemories (logInteraction initDB "B" "user" "hi") "B" ∧
    getRecentHistory (logInteraction (logInteraction initDB "B" "user" "hi") "A" "user" "yo")
        "B" 5 =
      getRecentHistory (logInteraction initDB "B" "user" "hi") "B" 5) :=
  ⟨by decide,
   reads_partitioned_by_user (logInteraction initDB "B" "user" "hi")
     "A" "B" "hobby" "chess" "user" "yo" "hobby" 5 (by decide)⟩

/-- C2: for a user whose logged interactions carry strictly increasing
server-assigned timestamps (true of every database built by
`log_interaction`), `get_recent_history(user_id, limit=k)` returns
exactly the last `min(k, N)` of the `N` entries of that user, in strictly
increasing timestamp order; if fewer than `k` exist it returns all of
them, still chronological, and with zero entries it returns `[]`. -/
theorem get_recent_history_chronological (db : PostgresMemoryDB)
    (u : String) (k : Nat)
    (h : db.interactions.Pairwise (fun a b => a.timestamp < b.timestamp)) :
    getRecentHistory db u k =
      (userInteractions db u).drop ((userInteractions db u).length - k) ∧
    (getRecentHistory db u k).length = min k (userInteractions db u).length ∧
    (getRecentHistory db u k).Pairwise (fun a b => a.timestamp < b.timestamp) ∧
    ((userInteractions db u).length ≤ k →
      getRecentHistory db u k = userInteractions db u) ∧
    (userInteractions db u = [] → getRecentHistory db u k = []) := by
  have hpl : (userInteractions db u).Pairwise
      (fun a b => a.timestamp < b.timestamp) := h.filter _
  have hmain : getRecentHistory db u k =
      (userInteractions db u).drop ((userInteractions db u).length - k) := by
    rw [getRecentHistory, sortDescBy_of_strictAsc _ _ hpl,
      ← List.rtake_eq_reverse_take_reverse]
    rfl
  refine ⟨hmain, ?_, ?_, ?_, ?_⟩
  · rw [hmain, List.length_drop]
    omega
  · rw [hmain]
    exact List.Pairwise.sublist (List.drop_sublist _ _) hpl
  · intro hk
    rw [hmain, Nat.sub_eq_zero_of_le hk, List.drop_zero]
  · intro hnil
    rw [hmain, hnil, List.drop_nil]

/-- Witness for C2: four interactions logged in sequence (three for
user `A`, one for user `B`); `get_recent_history("A", 2)` is evaluated
through the theorem on this concrete database. -/
theorem get_recent_history_chronological_witness :
    (logInteraction (logInteraction (logInteraction (logInteraction initDB
        "A" "user" "m1") "A" "assistant" "r1") "B" "user" "x") "A" "user" "m2").interactions.Pairwise
      (fun a b => a.timestamp < b.timestamp) ∧
    (getRecentHistory (logInteraction (logInteraction (logInteraction (logInteraction initDB
        "A" "user" "m1") "A" "assistant" "r1") "B" "user" "x") "A" "user" "m2") "A" 2 =
      (userInteractions (logInteraction (logInteraction (logInteraction (logInteraction initDB
        "A" "user" "m1") "A" "assistant" "r1") "B" "user" "x") "A" "user" "m2") "A").drop
        ((userInteractions (logInteraction (logInteraction (logInteraction (logInteraction initDB
        "A" "user" "m1") "A" "assistant" "r1") "B" "user" "x") "A" "user" "m2") "A").length - 2) ∧
      (getRecentHistory (logInteraction (logInteraction (logInteraction (logInteraction initDB
        "A" "user" "m1") "A" "assistant" "r1") "B" "user" "x") "A" "user" "m2") "A" 2).length =
        min 2 (userInteractions (logInteraction (logInteraction (logInteraction (logInteraction initDB
        "A" "user" "m1") "A" "assistant" "r1") "B" "user" "x") "A" "user" "m2") "A").length ∧
      (getRecentHistory (logInteraction (logInteraction (logInteraction (logInteraction initDB
        "A" "user" "m1") "A" "assistant" "r1") "B" "user" "x") "A" "user" "m2") "A" 2).Pairwise
        (fun a b => a.timestamp < b.timestamp) ∧
      ((userInteractions (logInteraction (logInteraction (logInteraction (logInteraction initDB
        "A" "user" "m1") "A" "assistant" "r1") "B" "user" "x") "A" "user" "m2") "A").length ≤ 2 →
        getRecentHistory (logInteraction (logInteraction (logInteraction (logInteraction initDB
        "A" "user" "m1") "A" "assistant" "r1") "B" "user" "x") "A" "user" "m2") "A" 2 =
          userInteractions (logInteraction (logInteraction (logInteraction (logInteraction initDB
        "A" "user" "m1") "A" "assistant" "r1") "B" "user" "x") "A" "user" "m2") "A") ∧
      (userInteractions (logInteraction (logInteraction (logInteraction (logInteraction initDB
        "A" "user" "m1") "A" "assistant" "r1") "B" "user" "x") "A" "user" "m2") "A" = [] →
        getRecentHistory (logInteraction (logInteraction (logInteraction (logInteraction initDB
        "A" "user" "m1") "A" "assistant" "r1") "B" "user" "x") "A" "user" "m2") "A" 2 = [])) :=
  ⟨by decide,
   get_recent_history_chronological (logInteraction (logInteraction (logInteraction
     (logInteraction initDB "A" "user" "m1") "A" "assistant" "r1") "B" "user" "x")
     "A" "user" "m2") "A" 2 (by decide)⟩

/-- Eleven facts saved in sequence through `save_preference` (keys
`k0`..`k10`, values `v0`..`v10`). -/
def elevenFactsDB : AgentFactsDB :=
  (List.range 11).foldl
    (fun d i => savePreference d ("k" ++ toString i) ("v" ++ toString i) "cat")
    ⟨[], 0⟩

/-- C9 counterexample: `retrieve_context` reads the preferences with
`ORDER BY timestamp DESC LIMIT 10`, so with eleven stored facts the
context payload omits the oldest one (`k0`), contradicting the claim
that the payload contains every stored fact with no bound. -/
theorem retrieve_context_omits_eleventh_fact :
    ("k0", "v0") ∈ elevenFactsDB.preferences.map (fun p => (p.key, p.value)) ∧
    ("k0", "v0") ∉ factsInContext elevenFactsDB := by decide

/-- C9 (amended): under the reachable-state invariant of strictly
increasing save timestamps (`PrefAsc`, preserved by every
`save_preference`), the facts selected into the context payload are
exactly the `min(10, N)` most recently saved ones, newest first — the
reversed suffix of the save-ordered table — so when at most 10 facts
are stored every stored `key:value` fact appears; and the payload
carries this facts block together with the conversation-history
rendering: the context string ends in the preferences block, and the
prompt assembled for the provider contains the chat-history string
verbatim. -/
theorem retrieve_context_payload_content (db : AgentFactsDB)
    (docs : List String) (chat_history user_message : String)
    (h : db.preferences.Pairwise (fun a b => a.timestamp < b.timestamp)) :
    selectedPreferences db =
      (db.preferences.drop (db.preferences.length - 10)).reverse ∧
    (factsInContext db).length = min 10 db.preferences.length ∧
    (db.preferences.length ≤ 10 →
      ∀ p ∈ db.preferences, (p.key, p.value) ∈ factsInContext db) ∧
    (∃ pre, retrieve_context docs db = pre ++ prefsBlock db) ∧
    (∃ pre post,
      buildPrompt (retrieve_context docs db) chat_history user_message =
        pre ++ chat_history ++ post) := by
  refine ⟨?_, ?_, ?_, ?_, ?_⟩
  · rw [selectedPreferences, sortDescBy_of_strictAsc _ _ h]
    calc db.preferences.reverse.take 10
        = (db.preferences.reverse.take 10).reverse.reverse :=
          (List.reverse_reverse _).symm
      _ = (db.preferences.rtake 10).reverse := by
          rw [← List.rtake_eq_reverse_take_reverse]
      _ = (db.preferences.drop (db.preferences.length - 10)).reverse := rfl
  · rw [factsInContext, List.length_map, selectedPreferences, List.length_take,
      sortDescBy_length]
  · intro hlen p hp
    have hmem : p ∈ sortDescBy (fun p => p.timestamp) db.preferences :=
      ((sortDescBy_perm _ _).mem_iff).mpr hp
    have hall : selectedPreferences db =
        sortDescBy (fun p => p.timestamp) db.preferences := by
      rw [selectedPreferences]
      refine List.take_of_length_le ?_
      rw [sortDescBy_length]
      exact hlen
    rw [factsInContext, hall]
    exact List.mem_map.mpr ⟨p, hmem, rfl⟩
  · exact ⟨_, rfl⟩
  · refine ⟨"\nContext about this user (Long-term Memory):\n" ++
      retrieve_context docs db ++
      "\n\nCurrent conversation history (Short-term Memory):\n",
      "\n\nUser message: " ++ user_message ++
        "\n\nInstruction:\nRespond naturally to the user. " ++
        "Use the context provided to personalize your answer.\n" ++
        "If the user asks a question about themselves " ++
        "(e.g., \"what do I like?\"), refer to the Context.", ?_⟩
    simp [buildPrompt, String.append_assoc]

/-- Two facts saved through `save_preference`. -/
def twoFactsDB : AgentFactsDB :=
  savePreference (savePreference ⟨[], 0⟩ "hobby" "chess" "personal")
    "city" "Paris" "personal"

/-- Witness for the amended C9 at a concrete two-fact database: the
selection is the reversed save-ordered table, both facts appear in the
payload (exercising the at-most-10 implication for the hobby fact),
and the prompt assembled over this payload contains the chat-history
block verbatim. -/
theorem retrieve_context_payload_content_witness :
    twoFactsDB.preferences.Pairwise (fun a b => a.timestamp < b.timestamp) ∧
    (selectedPreferences twoFactsDB =
      (twoFactsDB.preferences.drop (twoFactsDB.preferences.length - 10)).reverse ∧
    (factsInContext twoFactsDB).length = min 10 twoFactsDB.preferences.length ∧
    (∃ pre, retrieve_context [] twoFactsDB = pre ++ prefsBlock twoFactsDB) ∧
    (∃ pre post,
      buildPrompt (retrieve_context [] twoFactsDB) "HISTORY" "hi" =
        pre ++ "HISTORY" ++ post)) ∧
    ("hobby", "chess") ∈ factsInContext twoFactsDB :=
  ⟨by decide,
   ⟨(retrieve_context_payload_content twoFactsDB [] "HISTORY" "hi" (by decide)).1,
    (retrieve_context_payload_content twoFactsDB [] "HISTORY" "hi" (by decide)).2.1,
    (retrieve_context_payload_content twoFactsDB [] "HISTORY" "hi" (by decide)).2.2.2.1,
    (retrieve_context_payload_content twoFactsDB [] "HISTORY" "hi" (by decide)).2.2.2.2⟩,
   (retrieve_context_payload_content twoFactsDB [] "HISTORY" "hi" (by decide)).2.2.1
     (by decide) ⟨"hobby", "chess", "personal", 0, 1⟩ (by decide)⟩

end IntelAgent
